import Mathlib

/-!
Verification of the solar-data-tools shade and soiling analysis core.

This development embeds the algorithmic core of `solardatatools/algorithms/shade.py`
and `solardatatools/algorithms/soiling.py` as Lean definitions over exact rationals
(reals where trigonometry is involved) and proves or refutes the specified
properties of that core.

Matrices are embedded as functions `ℕ → ℕ → ℚ` together with explicit row and
column counts carried by the theorems; 1-D series are `ℕ → ℚ`.  Convex problems
built by the code are embedded as the pair (objective function, constraint
predicate) over explicit variable values; the external solver is modelled as an
oracle producing a point satisfying the constraint predicate.
-/

namespace SolarDataTools

/-! ## Uniform-grid linear interpolation (`scipy.interpolate.interp1d`
on `np.linspace(0, 1, K)` knots, queried inside `[0, 1]`).

`interpUnif v K x` interpolates the values `v 0, …, v (K-1)` placed at the
uniform grid points `0, 1/(K-1), …, 1` and evaluates at `x`.  The segment index
is clamped to `K - 2` so that the query point `x = 1` falls in the last segment,
exactly as a piecewise-linear interpolant behaves. -/
def segIdx (K : ℕ) (p : ℚ) : ℕ := min p.floor.toNat (K - 2)

/-- Value of the interpolant: with `p = x * (K - 1)` the scaled position and
`i = segIdx K p` the segment, the value is `v i + (p - i) * (v (i+1) - v i)`. -/
def interpUnif (v : ℕ → ℚ) (K : ℕ) (x : ℚ) : ℚ :=
  v (segIdx K (x * ((K : ℚ) - 1)))
    + (x * ((K : ℚ) - 1) - (segIdx K (x * ((K : ℚ) - 1)) : ℚ))
      * (v (segIdx K (x * ((K : ℚ) - 1)) + 1) - v (segIdx K (x * ((K : ℚ) - 1))))

/-- Ordered list of row indices where the mask is true
(`np.arange(nrows)[msk]`). -/
def maskedIdxs (msk : ℕ → Bool) (nrows : ℕ) : List ℕ :=
  (List.range nrows).filter (fun i => msk i)

/-- The masked values of a column, in row order (`y[msk]`). -/
def maskedVals (y : ℕ → ℚ) (msk : ℕ → Bool) (nrows : ℕ) : List ℚ :=
  (maskedIdxs msk nrows).map y

/-- Number of masked samples in a column (`int(np.sum(msk))`). -/
def countMasked (msk : ℕ → Bool) (nrows : ℕ) : ℕ :=
  (maskedIdxs msk nrows).length

/-- Position of row `i` among the masked rows of its column: the number of
masked rows strictly below `i`. -/
def maskedRank (msk : ℕ → Bool) (i : ℕ) : ℕ :=
  (maskedIdxs msk i).length

/-- Full-column sum `np.sum(y)` over all `nrows` rows (NOT restricted to the
mask): this is the `energy` computed by `batch_process`. -/
def colEnergy (y : ℕ → ℚ) (nrows : ℕ) : ℚ :=
  ∑ i ∈ Finset.range nrows, y i

/-- Sum of only the daytime-masked values of a column. -/
def maskedEnergy (y : ℕ → ℚ) (msk : ℕ → Bool) (nrows : ℕ) : ℚ :=
  ∑ i ∈ Finset.range nrows, if msk i then y i else 0

/-- Embeds `interp_f(xs_new)` of `batch_process`: the masked trace interpolated from
its own uniform grid of `countMasked` points onto the uniform grid of `N`
points, evaluated at output row `m` (grid point `m / (N - 1)`). -/
def resampleRaw (y : ℕ → ℚ) (msk : ℕ → Bool) (nrows N : ℕ) : ℕ → ℚ :=
  fun m =>
    interpUnif (fun j => (maskedVals y msk nrows).getD j 0)
      (countMasked msk nrows) ((m : ℚ) / ((N : ℚ) - 1))

/-- Embeds `np.sum(resampled_signal)`. -/
def resampledSum (y : ℕ → ℚ) (msk : ℕ → Bool) (nrows N : ℕ) : ℚ :=
  ∑ m ∈ Finset.range N, resampleRaw y msk nrows N m

/-- One column of `batch_process`: the resampled trace, renormalized so that
its sum equals the full-column `energy` whenever the resampled sum is
positive, and all-zero otherwise. -/
def batchCol (y : ℕ → ℚ) (msk : ℕ → Bool) (nrows N : ℕ) : ℕ → ℚ :=
  if 0 < resampledSum y msk nrows N then
    fun m => resampleRaw y msk nrows N m * colEnergy y nrows / resampledSum y msk nrows N
  else
    fun _ => 0

/-- Embeds `batch_process(data, mask, power)`: the output matrix has `2 ^ power` rows
and one column per input column, each column processed independently. -/
def batch_process (data : ℕ → ℕ → ℚ) (mask : ℕ → ℕ → Bool) (nrows power : ℕ) :
    ℕ → ℕ → ℚ :=
  fun m c => batchCol (fun i => data i c) (fun i => mask i c) nrows (2 ^ power) m

/-- One column of `undo_batch_process`: interpolate the `N`-point column `d`
back onto `countMasked` uniform points and write them into the masked row
positions, leaving zeros elsewhere. -/
def undoCol (d : ℕ → ℚ) (N : ℕ) (msk : ℕ → Bool) (nrows : ℕ) : ℕ → ℚ :=
  fun i =>
    if msk i then
      interpUnif d N
        ((maskedRank msk i : ℚ) / ((countMasked msk nrows : ℚ) - 1))
    else 0

/-- Embeds `undo_batch_process(data, mask)` where `data` has `N` rows and `mask` has
`nrows` rows; columns are processed independently. -/
def undo_batch_process (data : ℕ → ℕ → ℚ) (N : ℕ) (mask : ℕ → ℕ → Bool)
    (nrows : ℕ) : ℕ → ℕ → ℚ :=
  fun i c => undoCol (fun m => data m c) N (fun r => mask r c) nrows i

/-! ## The shade-separation convex program (`ShadeAnalysis.make_osd_problem`)

`cvx.diff(x, k, axis)` is the `k`-fold iterated first difference along the
given axis; we embed it as iterated first differences, exactly as cvxpy
computes it. -/

/-- First difference along axis 0 (down the rows). -/
def d1row (x : ℕ → ℕ → ℚ) : ℕ → ℕ → ℚ := fun i j => x (i + 1) j - x i j

/-- First difference along axis 1 (across the columns). -/
def d1col (x : ℕ → ℕ → ℚ) : ℕ → ℕ → ℚ := fun i j => x i (j + 1) - x i j

/-- Embeds `cvx.diff(x, k=2, axis=0)`. -/
def mdiff2Row (x : ℕ → ℕ → ℚ) : ℕ → ℕ → ℚ := d1row (d1row x)

/-- Embeds `cvx.diff(x, k=2, axis=1)`. -/
def mdiff2Col (x : ℕ → ℕ → ℚ) : ℕ → ℕ → ℚ := d1col (d1col x)

/-- Embeds `cvx.diff(x, k=4, axis=1)`. -/
def mdiff4Col (x : ℕ → ℕ → ℚ) : ℕ → ℕ → ℚ := d1col (d1col (d1col (d1col x)))

/-- Sum of the entries of an `m × n` matrix. -/
def msum (m n : ℕ) (x : ℕ → ℕ → ℚ) : ℚ :=
  ∑ i ∈ Finset.range m, ∑ j ∈ Finset.range n, x i j

/-- The quantile used by `make_osd_problem` (`t = 0.85`). -/
def osdTau : ℚ := 85 / 100

/-- Embeds `phi1 = cvx.sum(0.5 * cvx.abs(x1) + (t - 0.5) * x1)` on an `m × n`
residual. -/
def osd_phi1 (m n : ℕ) (x1 : ℕ → ℕ → ℚ) : ℚ :=
  msum m n (fun i j => (1 / 2) * |x1 i j| + (osdTau - 1 / 2) * x1 i j)

/-- Term `phi2`: sum of squared second differences of `x2` along both axes
(`cvx.diff(·, k=2, axis=0)` has shape `(m-2) × n`; axis 1 gives
`m × (n-2)`). -/
def osd_phi2 (m n : ℕ) (x2 : ℕ → ℕ → ℚ) : ℚ :=
  msum (m - 2) n (fun i j => (mdiff2Row x2 i j) ^ 2)
    + msum m (n - 2) (fun i j => (mdiff2Col x2 i j) ^ 2)

/-- Term `phi3`: the same roughness penalty applied to `x3`. -/
def osd_phi3 (m n : ℕ) (x3 : ℕ → ℕ → ℚ) : ℚ :=
  msum (m - 2) n (fun i j => (mdiff2Row x3 i j) ^ 2)
    + msum m (n - 2) (fun i j => (mdiff2Col x3 i j) ^ 2)

/-- Embeds `phi4 = cvx.sum(x3)`. -/
def osd_phi4 (m n : ℕ) (x3 : ℕ → ℕ → ℚ) : ℚ := msum m n x3

/-- The objective `20 * phi1 + 1e1 * phi2 + 1e2 * phi3 + 8e-1 * phi4` of
`make_osd_problem`. -/
def osd_objective (m n : ℕ) (x1 x2 x3 : ℕ → ℕ → ℚ) : ℚ :=
  20 * osd_phi1 m n x1 + 10 * osd_phi2 m n x2 + 100 * osd_phi3 m n x3
    + (8 / 10) * osd_phi4 m n x3

/-- The constraint list of `make_osd_problem` on an `m × n` surface `y`:
`y == x1 + x2 - x3`, `x2 >= 0`, `x2[:, 0] == 0`, `x2[:, -1] == 0`,
`cvx.diff(x2, k=4, axis=1) <= 0`, `cvx.diff(x2, k=2, axis=0) <= 0`,
`x3 >= 0`. -/
def osd_constraints (m n : ℕ) (y x1 x2 x3 : ℕ → ℕ → ℚ) : Prop :=
  (∀ i < m, ∀ j < n, y i j = x1 i j + x2 i j - x3 i j)
  ∧ (∀ i < m, ∀ j < n, 0 ≤ x2 i j)
  ∧ (∀ i < m, x2 i 0 = 0)
  ∧ (∀ i < m, x2 i (n - 1) = 0)
  ∧ (∀ i < m, ∀ j, j < n - 4 → mdiff4Col x2 i j ≤ 0)
  ∧ (∀ i, i < m - 2 → ∀ j < n, mdiff2Row x2 i j ≤ 0)
  ∧ (∀ i < m, ∀ j < n, 0 ≤ x3 i j)

/-! ### Spec-side statement of the same program (for the refinement claim).

These definitions follow the spec's words: the pinball (quantile) loss at
`τ = 0.85` applied elementwise, second differences written with their binomial
coefficients, and the fourth difference along axis 1 likewise. -/

/-- Pinball (quantile) loss at quantile `τ`:
`τ·max(u,0) + (1-τ)·max(-u,0)`. -/
def pinball (τ u : ℚ) : ℚ := τ * max u 0 + (1 - τ) * max (-u) 0

/-- Spec-side second difference along axis 0, with binomial coefficients. -/
def specDiff2Row (x : ℕ → ℕ → ℚ) : ℕ → ℕ → ℚ :=
  fun i j => x (i + 2) j - 2 * x (i + 1) j + x i j

/-- Spec-side second difference along axis 1, with binomial coefficients. -/
def specDiff2Col (x : ℕ → ℕ → ℚ) : ℕ → ℕ → ℚ :=
  fun i j => x i (j + 2) - 2 * x i (j + 1) + x i j

/-- Spec-side fourth difference along axis 1, with binomial coefficients. -/
def specDiff4Col (x : ℕ → ℕ → ℚ) : ℕ → ℕ → ℚ :=
  fun i j => x i (j + 4) - 4 * x i (j + 3) + 6 * x i (j + 2) - 4 * x i (j + 1) + x i j

/-- Spec-side objective: `20·φ1 + 10·φ2 + 100·φ3 + 0.8·φ4` with `φ1` the
elementwise pinball loss at `τ = 0.85`, `φ2`, `φ3` sums of squared second
differences along both axes, `φ4` the total mass of `x3`. -/
def spec_osd_objective (m n : ℕ) (x1 x2 x3 : ℕ → ℕ → ℚ) : ℚ :=
  20 * msum m n (fun i j => pinball (85 / 100) (x1 i j))
    + 10 * (msum (m - 2) n (fun i j => (specDiff2Row x2 i j) ^ 2)
        + msum m (n - 2) (fun i j => (specDiff2Col x2 i j) ^ 2))
    + 100 * (msum (m - 2) n (fun i j => (specDiff2Row x3 i j) ^ 2)
        + msum m (n - 2) (fun i j => (specDiff2Col x3 i j) ^ 2))
    + (8 / 10) * msum m n x3

/-- Spec-side constraint set: `Y = x1 + x2 − x3`, `x2 ≥ 0`, first and last
columns of `x2` are zero, fourth difference of `x2` along axis 1 is
nonpositive, second difference of `x2` along axis 0 is nonpositive,
`x3 ≥ 0`. -/
def spec_osd_constraints (m n : ℕ) (y x1 x2 x3 : ℕ → ℕ → ℚ) : Prop :=
  (∀ i < m, ∀ j < n, y i j = x1 i j + x2 i j - x3 i j)
  ∧ (∀ i < m, ∀ j < n, 0 ≤ x2 i j)
  ∧ (∀ i < m, x2 i 0 = 0)
  ∧ (∀ i < m, x2 i (n - 1) = 0)
  ∧ (∀ i < m, ∀ j, j < n - 4 → specDiff4Col x2 i j ≤ 0)
  ∧ (∀ i, i < m - 2 → ∀ j < n, specDiff2Row x2 i j ≤ 0)
  ∧ (∀ i < m, ∀ j < n, 0 ≤ x3 i j)

/-! ## The soiling-separation solvers (`soiling.py`)

1-D series are `ℕ → ℚ`; a possibly-NaN observed series is `ℕ → Option ℚ`
(`none` = NaN, the only NaN operation the code performs is `np.isnan`).
`cvx.diff(s, k)` is the `k`-fold iterated first difference. -/

/-- First difference of a series. -/
def d1s (s : ℕ → ℚ) : ℕ → ℚ := fun j => s (j + 1) - s j

/-- Embeds `cvx.diff(s, k=2)`. -/
def diff2s (s : ℕ → ℚ) : ℕ → ℚ := d1s (d1s s)

/-- The index set actually used by `soiling_seperation`: the caller-supplied
`index_set` (when given) intersected with the non-NaN positions of `observed`;
when omitted, exactly the non-NaN positions (`~np.isnan(observed)`). -/
def effIndexSet (observed : ℕ → Option ℚ) (idxSet : Option (ℕ → Bool)) : ℕ → Bool :=
  match idxSet with
  | Option.none => fun i => (observed i).isSome
  | Option.some s => fun i => s i && (observed i).isSome

/-- Constant `eps` of `soiling_seperation` (`eps = .01`). -/
def sepEps : ℚ := 1 / 100

/-- The scale `1e2` in `soiling_seperation`'s weight update. -/
def sepScale : ℚ := 100

/-- Embeds the post-solve weight update of `soiling_seperation`,
`w.value = 1 / (eps + 1e2 * np.abs(cvx.diff(s1, k=2).value))`, a function of
the soiling variable `s1`. -/
def sepUpdateW (s1 : ℕ → ℚ) : ℕ → ℚ :=
  fun j => 1 / (sepEps + sepScale * |diff2s s1 j|)

/-- The L1 penalty term `c1 * cvx.norm(cvx.multiply(w, cvx.diff(s1, k=2)), p=1)`
of `soiling_seperation`'s cost, a function of the SAME soiling variable `s1`
whose second difference drives the weight update. -/
def sepL1Penalty (c1 : ℚ) (w s1 : ℕ → ℚ) (n : ℕ) : ℚ :=
  c1 * ∑ j ∈ Finset.range (n - 2), |w j * diff2s s1 j|

/-- The weight entering iteration `i` of `soiling_seperation`'s loop, given
the per-iteration solver solutions for `s1` (`oracle i` is iteration `i`'s
solved soiling component): `np.ones(n-2)` initially, and after each solve the
reweighting update applied to that iteration's `s1`. -/
def sepWeightAt (oracle : ℕ → (ℕ → ℚ)) : ℕ → (ℕ → ℚ)
  | 0 => fun _ => 1
  | i + 1 => sepUpdateW (oracle i)

/-- The constraint set built by one iteration of `soiling_seperation` for a
series of length `n`.  The seasonal variable `s2` has length `max n 367`;
`s2[365:] - s2[:-365] == 0` relates entries `t` and `t + 365` of that full
variable, and `cvx.sum(s2[:365]) == 0` sums its first 365 entries.  The
reconstruction constraint is imposed only on the effective index set.  The
`zero_set` first-difference freeze is appended only when the set is nonempty,
which is equivalent to the guarded universal below.  When
`n < 0.75 * 365`, the whole seasonal variable is pinned to zero. -/
def sepConstraints (n : ℕ) (soilingMax : ℚ) (observed : ℕ → Option ℚ)
    (idxSet : Option (ℕ → Bool)) (degradationTerm : Bool) (zeroSet : ℕ → Bool)
    (s1 s2 s3 sr : ℕ → ℚ) : Prop :=
  (∀ i < n, effIndexSet observed idxSet i = true →
      (observed i).getD 0 = s1 i + s2 i + s3 i + sr i)
  ∧ (∀ t, t + 365 < max n 367 → s2 (t + 365) = s2 t)
  ∧ (∑ t ∈ Finset.range 365, s2 t = 0)
  ∧ (∀ i < n, s1 i ≤ soilingMax)
  ∧ (if degradationTerm then
        (∀ j, j < n - 2 → diff2s s3 j = 0) ∧ s3 0 = 0
      else ∀ i < n, s3 i = 0)
  ∧ (∀ j, j < n - 1 → zeroSet j = true → d1s s1 j = 0)
  ∧ ((n : ℚ) < (3 / 4) * 365 → ∀ t < max n 367, s2 t = 0)

/-- Constant `eps` of `soiling_seperation_algorithm_v2` (`eps = 1e-5`). -/
def v2Eps : ℚ := 1 / 100000

/-- Embeds the post-solve weight update of `soiling_seperation_algorithm_v2`,
`w = 1 / (eps + np.abs(cvx.diff(s1, k=2).value))` — a function of `s1`, which
in this variant is the ERROR variable (`s1 = cvx.Variable(n)  # error`). -/
def v2UpdateW (s1 : ℕ → ℚ) : ℕ → ℚ :=
  fun j => 1 / (v2Eps + |diff2s s1 j|)

/-- The L1 penalty term
`lmbda2 * cvx.norm(cvx.multiply(w, cvx.diff(s3, k=2)), p=1)` of the v2 cost, a
function of the SOILING variable `s3` (`s3 = cvx.Variable(n)  # soiling`). -/
def v2L1Penalty (lmbda2 : ℚ) (w s3 : ℕ → ℚ) (n : ℕ) : ℚ :=
  lmbda2 * ∑ j ∈ Finset.range (n - 2), |w j * diff2s s3 j|

/-- The weight entering iteration `i` of the v2 loop, given per-iteration
solver solutions `(error s1, soiling s3)`: ones initially, then the code's
update applied to the ERROR component of the previous solution. -/
def v2WeightAt (oracle : ℕ → ((ℕ → ℚ) × (ℕ → ℚ))) : ℕ → (ℕ → ℚ)
  | 0 => fun _ => 1
  | i + 1 => v2UpdateW (oracle i).1

/-- The constraint set built by one iteration of
`soiling_seperation_algorithm_v2` for a series of length `n`.  All four
variables have length `n`.  `data` is the log10-transformed observed series
(the transcendental `np.log10` is applied upstream of the problem and enters
only through this parameter); `knownSet` is `known_set ∧ ¬ isnan`. -/
def v2Constraints (n : ℕ) (data : ℕ → ℚ) (knownSet : ℕ → Bool)
    (s1 s2 s3 s4 : ℕ → ℚ) : Prop :=
  (∀ i < n, knownSet i = true → data i = s1 i + s2 i + s3 i + s4 i)
  ∧ (∀ t, t + 365 < n → s2 (t + 365) = s2 t)
  ∧ (∑ t ∈ Finset.range (min 365 n), s2 t = 0)
  ∧ (∀ i < n, s3 i ≤ 0)
  ∧ (∀ j, j < n - 2 → diff2s s4 j = 0)
  ∧ (s4 0 = 0)

/-! ## The `ShadeAnalysis` object state and `run`

`run` is embedded as a state transition.  The cvxpy problem object is
represented by the values its two named variables hold (`none` before a
successful solve, as cvxpy leaves `.value = None`); the external
`problem.solve(...)` call is modelled by a `SolveOutcome` parameter: either it
completes (with whatever variable values the solve left behind) or it raises a
solver error, which `run` does not catch. -/

/-- The variable values held by the osd problem object
(`variable_dict['clear-sky'].value`, `variable_dict['shade'].value`). -/
structure OSDVars where
  clearVal : Option (ℕ → ℕ → ℚ)
  shadeVal : Option (ℕ → ℕ → ℚ)

/-- A freshly constructed problem: no variable has a value yet. -/
def freshOSDVars : OSDVars := ⟨Option.none, Option.none⟩

/-- The attributes of a `ShadeAnalysis` object relevant to `run`. -/
structure ShadeState where
  dataNormalized : Option (ℕ → ℕ → ℚ)
  dataTransformed : Option (ℕ → ℕ → ℚ)
  osdProblem : Option OSDVars
  clearSkyComponent : Option (ℕ → ℕ → ℚ)
  shadeComponent : Option (ℕ → ℕ → ℚ)

/-- Embeds `__init__`: the three cached fields start as `None`; no components are
published. -/
def initShadeState : ShadeState :=
  ⟨Option.none, Option.none, Option.none, Option.none, Option.none⟩

/-- The `has_run` property: all three cached fields are present. -/
def hasRun (st : ShadeState) : Bool :=
  st.dataNormalized.isSome && st.dataTransformed.isSome && st.osdProblem.isSome

/-- Outcome of the external `problem.solve(...)` call. -/
inductive SolveOutcome where
  /-- Outcome where `solve` returns; `vars` are the variable values it left on the problem
  (they remain `None` for an infeasible/unbounded status). -/
  | completes (vars : OSDVars) : SolveOutcome
  /-- Outcome where `solve` raises a solver error with the given message. -/
  | raises (msg : String) : SolveOutcome

/-- Result of one call to `run`: the final object state, the propagated
exception if any, and whether the transform and the solve were executed. -/
structure RunResult where
  state : ShadeState
  raised : Option String
  transformed : Bool
  solved : Bool

/-- Embeds `ShadeAnalysis.run`: when `has_run` is false, it stores the transform
results and a fresh problem (all BEFORE solving), then solves; an exception
from the solve propagates, leaving the object in the mutated state.  In every
non-raising path the last two lines republish the problem's current variable
values as the components. -/
def runShade (st : ShadeState) (tr : (ℕ → ℕ → ℚ) × (ℕ → ℕ → ℚ))
    (outcome : SolveOutcome) : RunResult :=
  if hasRun st then
    let pv := st.osdProblem.getD freshOSDVars
    { state := { st with clearSkyComponent := pv.clearVal,
                         shadeComponent := pv.shadeVal },
      raised := Option.none, transformed := false, solved := false }
  else
    let st1 : ShadeState :=
      { st with dataNormalized := Option.some tr.1,
                dataTransformed := Option.some tr.2,
                osdProblem := Option.some freshOSDVars }
    match outcome with
    | SolveOutcome.raises msg =>
        { state := st1, raised := Option.some msg,
          transformed := true, solved := true }
    | SolveOutcome.completes vars =>
        let st2 : ShadeState := { st1 with osdProblem := Option.some vars }
        { state := { st2 with clearSkyComponent := vars.clearVal,
                              shadeComponent := vars.shadeVal },
          raised := Option.none, transformed := true, solved := true }

/-! ## Yearly energy reconstruction (`analyze_yearly_energy`, `delta_cooper`)

This part of the code is genuinely real-valued (it contains `np.sin`), so it
is embedded over `ℝ`. -/

/-- Embeds `delta_cooper`: `23.45 * np.sin(np.deg2rad(360 * (284 + d) / 365))`
(`np.deg2rad x = x * π / 180`). -/
noncomputable def delta_cooper (d : ℝ) : ℝ :=
  23.45 * Real.sin ((360 * (284 + d) / 365) * (Real.pi / 180))

/-- Embeds `my_round(x, c) = c * np.round(x / c)` from `transform_data`. -/
noncomputable def myRound (x c : ℝ) : ℝ := c * (round (x / c) : ℤ)

/-- The declination bucket key `my_round(delta_cooper(doy), 1)` used by
`transform_data` when aggregating days by declination. -/
noncomputable def transformDeltaKey (doy : ℝ) : ℝ := myRound (delta_cooper doy) 1

open Classical in
/-- Piecewise-linear interpolation through the `B` points
`(xs b, vs b)` with linear extrapolation beyond both ends
(`scipy.interpolate.interp1d(..., fill_value="extrapolate")` on increasing
knots): the segment index counts the interior knots that lie at or below the
query point, so queries left of `xs 1` use the first segment and queries at or
beyond `xs (B-2)` use the last. -/
noncomputable def interpExtrap (xs vs : ℕ → ℝ) (B : ℕ) (x : ℝ) : ℝ :=
  let i : ℕ := ((Finset.range (B - 2)).filter (fun b => xs (b + 1) ≤ x)).card
  vs i + (x - xs i) * (vs (i + 1) - vs i) / (xs (i + 1) - xs i)

/-- Row sums of a solved component, scaled by `data_sampling / 60`
(`np.sum(component, axis=1) * scale`). -/
noncomputable def rowSumScaled (comp : ℕ → ℕ → ℝ) (ncols : ℕ) (sampling : ℝ) :
    ℕ → ℝ :=
  fun b => (∑ j ∈ Finset.range ncols, comp b j) * (sampling / 60)

/-- The interpolating function `f_loss`/`f_clear` built by
`analyze_yearly_energy` from the declination index values
(`data_transformed.index.values`, `B` of them) and a solved component. -/
noncomputable def componentInterp (idx : ℕ → ℝ) (B : ℕ) (comp : ℕ → ℕ → ℝ)
    (ncols : ℕ) (sampling : ℝ) : ℝ → ℝ :=
  interpExtrap idx (rowSumScaled comp ncols sampling) B

/-- Embeds `daily_shade_loss = f_loss(delta_cooper(np.arange(365) + 1))`: entry
`d` (for `d < 365`) is the shade interpolant evaluated at the declination of
day-of-year `d + 1`. -/
noncomputable def daily_shade_loss (idx : ℕ → ℝ) (B : ℕ) (shadeComp : ℕ → ℕ → ℝ)
    (ncols : ℕ) (sampling : ℝ) : ℕ → ℝ :=
  fun d => componentInterp idx B shadeComp ncols sampling (delta_cooper ((d : ℝ) + 1))

/-- Embeds `daily_clear_energy = f_clear(delta_cooper(np.arange(365) + 1))`. -/
noncomputable def daily_clear_energy (idx : ℕ → ℝ) (B : ℕ) (clearComp : ℕ → ℕ → ℝ)
    (ncols : ℕ) (sampling : ℝ) : ℕ → ℝ :=
  fun d => componentInterp idx B clearComp ncols sampling (delta_cooper ((d : ℝ) + 1))

/-- Embeds `daily_modeled_energy = daily_clear_energy - daily_shade_loss`. -/
noncomputable def daily_modeled_energy (idx : ℕ → ℝ) (B : ℕ)
    (shadeComp clearComp : ℕ → ℕ → ℝ) (ncols : ℕ) (sampling : ℝ) : ℕ → ℝ :=
  fun d => daily_clear_energy idx B clearComp ncols sampling d
    - daily_shade_loss idx B shadeComp ncols sampling d

/-- The spec's declination formula, as written:
`δ = 23.45 · sin(360 · (284 + d) / 365)` with the sine argument read in
degrees (i.e. multiplied by `π / 180` to evaluate). -/
noncomputable def specDeclination (d : ℝ) : ℝ :=
  23.45 * Real.sin (Real.pi / 180 * (360 * (284 + d) / 365))

/-- A concrete seasonal assignment (viewed through length 367) used to
exercise the seasonal constraints of `soiling_seperation` at series length
274: entry 0 is 364, entries 1..364 are -1, and the two wrap-around entries
365, 366 repeat entries 0, 1 as periodicity requires. -/
def seasonalEx : ℕ → ℚ := fun t => if t = 0 ∨ t = 365 then 364 else -1

/-- The single-day example column `(1, 1, 2)` used to exercise
`batch_process`: rows 0 and 1 carry power 1, row 2 carries power 2. -/
def yEx : ℕ → ℚ := fun i => if i = 2 then 2 else 1

/-- The daytime mask of the example column: rows 0 and 1 are daytime, row 2
is not. -/
def mskEx : ℕ → Bool := fun i => decide (i < 2)

/-! ## Helper lemmas -/

/-- Linear interpolation on a uniform grid reproduces affine data exactly:
if the `K ≥ 2` knot values are `a + b·j`, the interpolant at `x` is
`a + b·(x·(K-1))`, for every query point (including extrapolation). -/
theorem interpUnif_affine (v : ℕ → ℚ) (K : ℕ) (a b x : ℚ) (hK : 2 ≤ K)
    (hv : ∀ j < K, v j = a + b * j) :
    interpUnif v K x = a + b * (x * ((K : ℚ) - 1)) := by
  unfold interpUnif
  have hi2 : segIdx K (x * ((K : ℚ) - 1)) ≤ K - 2 := min_le_right _ _
  have h1 : segIdx K (x * ((K : ℚ) - 1)) < K := by omega
  have h2 : segIdx K (x * ((K : ℚ) - 1)) + 1 < K := by omega
  rw [hv _ h1, hv _ h2]
  push_cast
  ring

/-- Linear interpolation of constant data is that constant. -/
theorem interpUnif_const (v : ℕ → ℚ) (K : ℕ) (a x : ℚ) (hK : 2 ≤ K)
    (hv : ∀ j < K, v j = a) : interpUnif v K x = a := by
  rw [interpUnif_affine v K a 0 x hK (fun j hj => by rw [hv j hj]; ring)]
  ring

/-- Sum of `seasonalEx` over an initial segment not reaching index 365:
the single entry 364 plus `-1` for each other index. -/
theorem seasonalEx_sum (M : ℕ) (hM : 0 < M) (hM' : M ≤ 365) :
    ∑ t ∈ Finset.range M, seasonalEx t = 365 - (M : ℚ) := by
  have h : ∀ t ∈ Finset.range M, seasonalEx t
      = (if t = 0 then (365 : ℚ) else 0) + (-1) := by
    intro t ht
    have ht' : t < M := Finset.mem_range.mp ht
    unfold seasonalEx
    rcases Nat.eq_zero_or_pos t with h0 | h0
    · subst h0; norm_num
    · have h365 : t ≠ 365 := by omega
      have h00 : t ≠ 0 := by omega
      simp [h00, h365]
  rw [Finset.sum_congr rfl h, Finset.sum_add_distrib,
    Finset.sum_ite_eq' (Finset.range M) 0 (fun _ => (365 : ℚ))]
  simp [Finset.mem_range, hM]
  ring

/-- The integrand of `phi1` is exactly the pinball loss at `τ = 0.85`. -/
theorem phi1_term_eq_pinball (x : ℚ) :
    (1 / 2) * |x| + (osdTau - 1 / 2) * x = pinball (85 / 100) x := by
  unfold osdTau pinball
  rcases le_total x 0 with h | h
  · rw [abs_of_nonpos h, max_eq_right h, max_eq_left (neg_nonneg.mpr h)]
    ring
  · rw [abs_of_nonneg h, max_eq_left h, max_eq_right (neg_nonpos.mpr h)]
    ring

/-- The iterated second difference along axis 0 equals its binomial form. -/
theorem mdiff2Row_eq (x : ℕ → ℕ → ℚ) (i j : ℕ) :
    mdiff2Row x i j = specDiff2Row x i j := by
  unfold mdiff2Row d1row specDiff2Row
  ring

/-- The iterated second difference along axis 1 equals its binomial form. -/
theorem mdiff2Col_eq (x : ℕ → ℕ → ℚ) (i j : ℕ) :
    mdiff2Col x i j = specDiff2Col x i j := by
  unfold mdiff2Col d1col specDiff2Col
  ring

/-- The iterated fourth difference along axis 1 equals its binomial form. -/
theorem mdiff4Col_eq (x : ℕ → ℕ → ℚ) (i j : ℕ) :
    mdiff4Col x i j = specDiff4Col x i j := by
  unfold mdiff4Col d1col specDiff4Col
  ring

/-! ## C1: the shade-separation convex program -/

/-- C1.  The convex program built by `ShadeAnalysis.make_osd_problem` for a
declination-indexed `m × n` surface `Y` minimizes exactly
`20·φ1 + 10·φ2 + 100·φ3 + 0.8·φ4`, where `φ1` is the elementwise pinball loss
at quantile `τ = 0.85` on the residual `x1`, `φ2` and `φ3` are the sums of
squared second differences along both axes of `x2` and `x3`, and `φ4` is the
sum of `x3`; and its constraint set is exactly `Y = x1 + x2 − x3`, `x2 ≥ 0`,
first and last columns of `x2` zero, fourth difference of `x2` along axis 1
nonpositive, second difference of `x2` along axis 0 nonpositive, and
`x3 ≥ 0`. -/
theorem make_osd_problem_matches_spec (m n : ℕ) (y x1 x2 x3 : ℕ → ℕ → ℚ) :
    osd_objective m n x1 x2 x3 = spec_osd_objective m n x1 x2 x3
    ∧ (osd_constraints m n y x1 x2 x3 ↔ spec_osd_constraints m n y x1 x2 x3) := by
  constructor
  · unfold osd_objective spec_osd_objective osd_phi1 osd_phi2 osd_phi3 osd_phi4
    simp only [phi1_term_eq_pinball, mdiff2Row_eq, mdiff2Col_eq]
  · unfold osd_constraints spec_osd_constraints
    simp only [mdiff4Col_eq, mdiff2Row_eq]

/-! ## C9: yearly energy reconstruction -/

/-- C9.  `ShadeAnalysis.analyze_yearly_energy` obtains `daily_shade_loss` and
`daily_clear_energy` (indexed by `d < 365`, i.e. length-365 sequences) by
evaluating the interpolating functions built from the row sums of the solved
components scaled by `data_sampling / 60` at the declination of day-of-year
`d + 1`, the declination being computed by the same `delta_cooper` used for
declination aggregation, which equals the spec formula
`δ = 23.45·sin(360·(284+d)/365)` in degrees; and `daily_modeled_energy` equals
`daily_clear_energy` minus `daily_shade_loss` elementwise. -/
theorem analyze_yearly_energy_spec (idx : ℕ → ℝ) (B : ℕ)
    (shadeComp clearComp : ℕ → ℕ → ℝ) (ncols : ℕ) (sampling : ℝ) :
    (∀ d, daily_modeled_energy idx B shadeComp clearComp ncols sampling d
        = daily_clear_energy idx B clearComp ncols sampling d
          - daily_shade_loss idx B shadeComp ncols sampling d)
    ∧ (∀ d, daily_shade_loss idx B shadeComp ncols sampling d
        = interpExtrap idx (rowSumScaled shadeComp ncols sampling) B
            (delta_cooper ((d : ℝ) + 1)))
    ∧ (∀ d, daily_clear_energy idx B clearComp ncols sampling d
        = interpExtrap idx (rowSumScaled clearComp ncols sampling) B
            (delta_cooper ((d : ℝ) + 1)))
    ∧ (∀ x : ℝ, delta_cooper x = specDeclination x)
    ∧ (∀ doy : ℝ, transformDeltaKey doy = myRound (delta_cooper doy) 1) := by
  refine ⟨fun d => rfl, fun d => rfl, fun d => rfl, fun x => ?_, fun doy => rfl⟩
  unfold delta_cooper specDeclination
  exact congrArg (fun z => 23.45 * Real.sin z) (by ring)

/-! ## C10: NaN guarding of the soiling index set -/

/-- C10.  In `soiling_seperation` the caller-supplied `index_set` is
intersected with the non-NaN positions of `observed` before use, so the
reconstruction equality of `sepConstraints` is never imposed at an index where
`observed` is NaN (its guard is false there, hence any guarded statement holds
vacuously), and when `index_set` is omitted exactly the non-NaN positions are
used. -/
theorem soiling_index_set_nan_guard :
    (∀ (observed : ℕ → Option ℚ) (idxSet : Option (ℕ → Bool)) (i : ℕ),
        observed i = Option.none → effIndexSet observed idxSet i = false)
    ∧ (∀ (observed : ℕ → Option ℚ) (idxSet : Option (ℕ → Bool)) (i : ℕ)
        (P : Prop), observed i = Option.none →
        (effIndexSet observed idxSet i = true → P))
    ∧ (∀ (observed : ℕ → Option ℚ) (i : ℕ),
        effIndexSet observed Option.none i = (observed i).isSome)
    ∧ (∀ (observed : ℕ → Option ℚ) (s : ℕ → Bool) (i : ℕ),
        effIndexSet observed (Option.some s) i = (s i && (observed i).isSome)) := by
  have h1 : ∀ (observed : ℕ → Option ℚ) (idxSet : Option (ℕ → Bool)) (i : ℕ),
      observed i = Option.none → effIndexSet observed idxSet i = false := by
    intro observed idxSet i h
    cases idxSet <;> simp [effIndexSet, h]
  refine ⟨h1, ?_, fun _ _ => rfl, fun _ _ _ => rfl⟩
  intro observed idxSet i P h hguard
  rw [h1 observed idxSet i h] at hguard
  exact absurd hguard (by simp)

/-- Witness for C10 at a concrete input: index 0 of an all-NaN series with an
all-true caller index set is excluded. -/
theorem soiling_index_set_nan_guard_witness :
    effIndexSet (fun _ => Option.none) (Option.some (fun _ => true)) 0 = false :=
  soiling_index_set_nan_guard.1 (fun _ => Option.none)
    (Option.some (fun _ => true)) 0 rfl

/-! ## C3: the iterative reweighting update -/

/-- C3.  In `soiling_seperation` the weight entering each iteration after the
first is `1/(ε + 100·|2nd-difference of s1|)` for the previous iteration's
soiling variable `s1` — the same variable whose weighted second difference is
the L1 penalty — but in `soiling_seperation_algorithm_v2` the update reads the
second difference of the ERROR variable `s1` while the L1 penalty weights the
second difference of the SOILING variable `s3`: at the concrete iteration
solution with error `s1 = j²` and soiling `s3 = 0`, the weight the code
computes differs from `1/(ε + |2nd-difference of the soiling trend|)`. -/
theorem v2_reweight_reads_error_variable :
    (∀ (oracle : ℕ → (ℕ → ℚ)) (i j : ℕ),
        sepWeightAt oracle (i + 1) j
          = 1 / (sepEps + sepScale * |diff2s (oracle i) j|))
    ∧ (∀ (c1 : ℚ) (w s1 : ℕ → ℚ) (n : ℕ),
        sepL1Penalty c1 w s1 n
          = c1 * ∑ j ∈ Finset.range (n - 2), |w j * diff2s s1 j|)
    ∧ v2WeightAt (fun _ => (fun j => ((j : ℚ)) ^ 2, fun _ => (0 : ℚ))) 1 0
        ≠ 1 / (v2Eps + |diff2s (fun _ => (0 : ℚ)) 0|) := by
  refine ⟨fun _ _ _ => rfl, fun _ _ _ _ => rfl, ?_⟩
  norm_num [v2WeightAt, v2UpdateW, v2Eps, diff2s, d1s]

/-! ## C4: failure behaviour of `ShadeAnalysis.run` -/

/-- C4 counterexample.  Starting from a fresh `ShadeAnalysis` object, a `run`
whose solve raises a solver error leaves the object with `has_run = true`
(the three cached fields are assigned before the solve), contradicting the
claim that the `has_run` state remains false after a failed call. -/
theorem run_failure_has_run_counterexample :
    (runShade initShadeState (fun _ _ => (0 : ℚ), fun _ _ => (0 : ℚ))
        (SolveOutcome.raises "SolverError")).raised = Option.some "SolverError"
    ∧ hasRun (runShade initShadeState (fun _ _ => (0 : ℚ), fun _ _ => (0 : ℚ))
        (SolveOutcome.raises "SolverError")).state = true := by
  constructor <;> rfl

/-- C4 amended.  If the solve inside `run` raises, the error propagates
uncaught carrying the solver's message and neither component is assigned
during that call, but the cached fields are stored before solving, so
`has_run` reports true (not false) after the failed call. -/
theorem run_failure_behavior (st : ShadeState)
    (tr : (ℕ → ℕ → ℚ) × (ℕ → ℕ → ℚ)) (msg : String)
    (h : hasRun st = false) :
    (runShade st tr (SolveOutcome.raises msg)).raised = Option.some msg
    ∧ (runShade st tr (SolveOutcome.raises msg)).solved = true
    ∧ (runShade st tr (SolveOutcome.raises msg)).state.clearSkyComponent
        = st.clearSkyComponent
    ∧ (runShade st tr (SolveOutcome.raises msg)).state.shadeComponent
        = st.shadeComponent
    ∧ hasRun (runShade st tr (SolveOutcome.raises msg)).state = true := by
  unfold runShade
  rw [h]
  simp [hasRun]

/-- Witness for the amended C4 at the fresh object state. -/
theorem run_failure_behavior_witness :
    (runShade initShadeState (fun _ _ => (0 : ℚ), fun _ _ => (0 : ℚ))
        (SolveOutcome.raises "MOSEK error")).raised = Option.some "MOSEK error"
    ∧ hasRun (runShade initShadeState (fun _ _ => (0 : ℚ), fun _ _ => (0 : ℚ))
        (SolveOutcome.raises "MOSEK error")).state = true := by
  have h := run_failure_behavior initShadeState
    (fun _ _ => (0 : ℚ), fun _ _ => (0 : ℚ)) "MOSEK error" rfl
  exact ⟨h.1, h.2.2.2.2⟩

/-! ## C8: idempotence of `run` once cached state is present -/

/-- C8.  Once `run` has completed (the cached normalized data, transformed
data and problem object are present, and the published components are the
problem's variable values), a repeated call performs no new transform and no
new solve and leaves the object state — in particular the published
`clear_sky_component` and `shade_component` — unchanged. -/
theorem run_idempotent_after_success (st : ShadeState) (pv : OSDVars)
    (tr : (ℕ → ℕ → ℚ) × (ℕ → ℕ → ℚ)) (outcome : SolveOutcome)
    (h1 : hasRun st = true)
    (h2 : st.osdProblem = Option.some pv)
    (h3 : st.clearSkyComponent = pv.clearVal)
    (h4 : st.shadeComponent = pv.shadeVal) :
    (runShade st tr outcome).transformed = false
    ∧ (runShade st tr outcome).solved = false
    ∧ (runShade st tr outcome).state = st := by
  unfold runShade
  rw [h1]
  refine ⟨rfl, rfl, ?_⟩
  rcases st with ⟨dn, dt, op, cs, sc⟩
  simp only [Option.getD] at *
  subst h2
  simp [h3, h4]

/-- Witness for C8 at a concrete post-run state. -/
theorem run_idempotent_after_success_witness :
    (runShade
        ⟨Option.some (fun _ _ => (0 : ℚ)), Option.some (fun _ _ => (0 : ℚ)),
          Option.some ⟨Option.some (fun _ _ => (0 : ℚ)),
            Option.some (fun _ _ => (0 : ℚ))⟩,
          Option.some (fun _ _ => (0 : ℚ)), Option.some (fun _ _ => (0 : ℚ))⟩
        (fun _ _ => (0 : ℚ), fun _ _ => (0 : ℚ))
        (SolveOutcome.raises "ignored")).solved = false
    ∧ (runShade
        ⟨Option.some (fun _ _ => (0 : ℚ)), Option.some (fun _ _ => (0 : ℚ)),
          Option.some ⟨Option.some (fun _ _ => (0 : ℚ)),
            Option.some (fun _ _ => (0 : ℚ))⟩,
          Option.some (fun _ _ => (0 : ℚ)), Option.some (fun _ _ => (0 : ℚ))⟩
        (fun _ _ => (0 : ℚ), fun _ _ => (0 : ℚ))
        (SolveOutcome.raises "ignored")).state
      = ⟨Option.some (fun _ _ => (0 : ℚ)), Option.some (fun _ _ => (0 : ℚ)),
          Option.some ⟨Option.some (fun _ _ => (0 : ℚ)),
            Option.some (fun _ _ => (0 : ℚ))⟩,
          Option.some (fun _ _ => (0 : ℚ)), Option.some (fun _ _ => (0 : ℚ))⟩ := by
  have h := run_idempotent_after_success
    ⟨Option.some (fun _ _ => (0 : ℚ)), Option.some (fun _ _ => (0 : ℚ)),
      Option.some ⟨Option.some (fun _ _ => (0 : ℚ)),
        Option.some (fun _ _ => (0 : ℚ))⟩,
      Option.some (fun _ _ => (0 : ℚ)), Option.some (fun _ _ => (0 : ℚ))⟩
    ⟨Option.some (fun _ _ => (0 : ℚ)), Option.some (fun _ _ => (0 : ℚ))⟩
    (fun _ _ => (0 : ℚ), fun _ _ => (0 : ℚ))
    (SolveOutcome.raises "ignored") rfl rfl rfl rfl
  exact ⟨h.2.1, h.2.2⟩

/-! ## C5: seasonal structure of `soiling_seperation` -/

/-- C5 counterexample.  At series length `n = 274` (at least `0.75 × 365`, so
the seasonal term is not forced to zero) the point with soiling, degradation
and residual all zero and seasonal component `seasonalEx` satisfies every
constraint `soiling_seperation` builds, yet the first 365 entries of the
RETURNED length-274 seasonal slice (`s2.value[:n]`, i.e. all 274 of them) sum
to 91, not 0: the zero-mean constraint binds the internal length-367
variable's first 365 entries, not the returned slice. -/
theorem seasonal_zero_mean_counterexample :
    sepConstraints 274 1 (fun i => Option.some (seasonalEx i)) Option.none
      false (fun _ => false) (fun _ => 0) seasonalEx (fun _ => 0) (fun _ => 0)
    ∧ ∑ t ∈ Finset.range (min 365 274), seasonalEx t ≠ 0 := by
  constructor
  · refine ⟨?_, ?_, ?_, ?_, ?_, ?_, ?_⟩
    · intro i _ _
      simp [effIndexSet]
    · intro t ht
      have h2 : t < 2 := by
        have : max 274 367 = 367 := by norm_num
        omega
      interval_cases t <;> norm_num [seasonalEx]
    · have := seasonalEx_sum 365 (by norm_num) (by norm_num)
      rw [this]
      norm_num
    · intro i _
      norm_num
    · intro i _
      rfl
    · intro j _ hz
      exact absurd hz (by simp)
    · intro hlt
      exfalso
      norm_num at hlt
  · rw [show min 365 274 = 274 by norm_num,
      seasonalEx_sum 274 (by norm_num) (by norm_num)]
    norm_num

/-- C5 amended.  For every point satisfying `soiling_seperation`'s
constraints, the returned seasonal slice is annually periodic at all valid
indices; its first 365 entries sum to zero whenever the series has at least
365 entries; and when the series length is below `0.75 × 365` the seasonal
component is forced identically to zero (the constraint is simply appended,
no error path exists).  For `274 ≤ n < 365` only the internal length-367
variable's first 365 entries are constrained to zero mean, not the returned
`n`-entry slice. -/
theorem seasonal_structure_amended (n : ℕ) (soilingMax : ℚ)
    (observed : ℕ → Option ℚ) (idxSet : Option (ℕ → Bool))
    (degradationTerm : Bool) (zeroSet : ℕ → Bool) (s1 s2 s3 sr : ℕ → ℚ)
    (h : sepConstraints n soilingMax observed idxSet degradationTerm zeroSet
      s1 s2 s3 sr) :
    (∀ t, t + 365 < n → s2 (t + 365) = s2 t)
    ∧ (365 ≤ n → ∑ t ∈ Finset.range 365, s2 t = 0)
    ∧ ((n : ℚ) < (3 / 4) * 365 → ∀ t < n, s2 t = 0) := by
  obtain ⟨-, hper, hsum, -, -, -, hforce⟩ := h
  refine ⟨?_, fun _ => hsum, ?_⟩
  · intro t ht
    exact hper t (lt_of_lt_of_le ht (le_max_left n 367))
  · intro hlt t ht
    exact hforce hlt t (lt_of_lt_of_le ht (le_max_left n 367))

/-- Witness for the amended C5 at the all-zero feasible point of a length-1
series. -/
theorem seasonal_structure_amended_witness :
    ((1 : ℚ) < (3 / 4) * 365 → ∀ t < 1, (fun _ : ℕ => (0 : ℚ)) t = 0)
    ∧ (∀ t, t + 365 < 1 → (fun _ : ℕ => (0 : ℚ)) (t + 365)
        = (fun _ : ℕ => (0 : ℚ)) t) := by
  have h := seasonal_structure_amended 1 0 (fun _ => Option.some 0)
    Option.none false (fun _ => false) (fun _ => 0) (fun _ => 0) (fun _ => 0)
    (fun _ => 0)
    ⟨fun i _ _ => by simp, fun t _ => rfl, by simp, fun i _ => le_refl 0,
      fun i _ => rfl, fun j _ hz => absurd hz (by simp), fun _ t _ => rfl⟩
  exact ⟨h.2.2, h.1⟩

/-! ## C6: sign and cap of the soiling trend -/

/-- C6 counterexample.  `soiling_seperation` never constrains its soiling
variable `s1` to be nonpositive: the point with `s1 ≡ 1/2`, seasonal,
degradation and residual zero, and `observed ≡ 1/2` satisfies every
constraint the code builds (with the default `soiling_max = 1`), yet
`s1 0 = 1/2 > 0`, refuting "everywhere non-positive". -/
theorem soiling_nonpositive_counterexample :
    sepConstraints 4 1 (fun _ => Option.some (1 / 2 : ℚ)) Option.none
      false (fun _ => false) (fun _ => 1 / 2) (fun _ => 0) (fun _ => 0)
      (fun _ => 0)
    ∧ ¬ ((fun _ : ℕ => (1 / 2 : ℚ)) 0 ≤ 0) := by
  constructor
  · refine ⟨?_, fun t _ => rfl, by simp, ?_, fun i _ => rfl, ?_, fun _ t _ => rfl⟩
    · intro i _ _
      norm_num [effIndexSet]
    · intro i _
      norm_num
    · intro j _ hz
      exact absurd hz (by simp)
  · norm_num

/-- C6 amended.  Every point satisfying the constraints of
`soiling_seperation` has its soiling trend `s1` bounded above by
`soiling_max` everywhere (nonpositivity is NOT enforced in this variant),
and every point satisfying the constraints of
`soiling_seperation_algorithm_v2` has its soiling component `s3` nonpositive
everywhere. -/
theorem soiling_cap_amended :
    (∀ (n : ℕ) (soilingMax : ℚ) (observed : ℕ → Option ℚ)
        (idxSet : Option (ℕ → Bool)) (degradationTerm : Bool)
        (zeroSet : ℕ → Bool) (s1 s2 s3 sr : ℕ → ℚ),
      sepConstraints n soilingMax observed idxSet degradationTerm zeroSet
        s1 s2 s3 sr → ∀ i < n, s1 i ≤ soilingMax)
    ∧ (∀ (n : ℕ) (data : ℕ → ℚ) (knownSet : ℕ → Bool) (s1 s2 s3 s4 : ℕ → ℚ),
      v2Constraints n data knownSet s1 s2 s3 s4 → ∀ i < n, s3 i ≤ 0) := by
  constructor
  · intro n soilingMax observed idxSet degradationTerm zeroSet s1 s2 s3 sr h
    exact h.2.2.2.1
  · intro n data knownSet s1 s2 s3 s4 h
    exact h.2.2.2.1

/-- Witness for the amended C6 at concrete all-zero feasible points of both
solver variants. -/
theorem soiling_cap_amended_witness :
    (fun _ : ℕ => (0 : ℚ)) 0 ≤ 1 ∧ (fun _ : ℕ => (0 : ℚ)) 0 ≤ 0 := by
  constructor
  · exact soiling_cap_amended.1 1 1 (fun _ => Option.some 0) Option.none false
      (fun _ => false) (fun _ => 0) (fun _ => 0) (fun _ => 0) (fun _ => 0)
      ⟨fun i _ _ => by simp, fun t _ => rfl, by simp, fun i _ => by norm_num,
        fun i _ => rfl, fun j _ hz => absurd hz (by simp), fun _ t _ => rfl⟩
      0 (by norm_num)
  · exact soiling_cap_amended.2 1 (fun _ => 0) (fun _ => false) (fun _ => 0)
      (fun _ => 0) (fun _ => 0) (fun _ => 0)
      ⟨fun i _ hz => absurd hz (by simp), fun t ht => absurd ht (by omega),
        by simp, fun i _ => le_refl 0, fun j _ => by norm_num [diff2s, d1s], rfl⟩
      0 (by norm_num)

/-! ## C2: resampling energy preservation -/

/-- Evaluation of the example column: its two masked values are both 1. -/
theorem yEx_maskedVals : ∀ j < 2, (maskedVals yEx mskEx 3).getD j 0 = 1 := by
  intro j hj
  interval_cases j <;> rfl

/-- The example column resamples to the constant 1 at every output row. -/
theorem yEx_resampleRaw (m : ℕ) : resampleRaw yEx mskEx 3 2 m = 1 := by
  unfold resampleRaw
  rw [show countMasked mskEx 3 = 2 from rfl]
  exact interpUnif_const _ 2 1 _ (by norm_num) yEx_maskedVals

/-- The resampled sum of the example column at `N = 2` is 2. -/
theorem yEx_resampledSum : resampledSum yEx mskEx 3 2 = 2 := by
  unfold resampledSum
  rw [Finset.sum_congr rfl fun m _ => yEx_resampleRaw m]
  simp

/-- The full-column energy of the example column is 4 (its masked energy is
only 2). -/
theorem yEx_colEnergy : colEnergy yEx 3 = 4 := by
  unfold colEnergy yEx
  rw [Finset.sum_range_succ, Finset.sum_range_succ, Finset.sum_range_succ]
  norm_num

/-- Each output entry of `batch_process` on the example column is 2. -/
theorem yEx_batch (m : ℕ) :
    batch_process (fun i _ => yEx i) (fun i _ => mskEx i) 3 1 m 0 = 2 := by
  show batchCol yEx mskEx 3 2 m = 2
  unfold batchCol
  rw [yEx_resampledSum, yEx_colEnergy]
  rw [if_pos (by norm_num : (0 : ℚ) < 2)]
  rw [yEx_resampleRaw m]
  norm_num

/-- C2 counterexample.  `batch_process` computes `energy = np.sum(y)` over the
WHOLE column, not over the daytime-masked values: for the single-day 3-row
column `(1, 1, 2)` with daytime mask `(true, true, false)` and `power = 1`,
the masked values sum to `2 > 0` but the output column sums to `4` (the full
column sum), not `2` as the claim states. -/
theorem batch_energy_counterexample :
    maskedEnergy yEx mskEx 3 = 2
    ∧ (0 : ℚ) < 2
    ∧ (∑ m ∈ Finset.range 2,
        batch_process (fun i _ => yEx i) (fun i _ => mskEx i) 3 1 m 0) = 4
    ∧ (4 : ℚ) ≠ 2 := by
  refine ⟨?_, by norm_num, ?_, by norm_num⟩
  · unfold maskedEnergy yEx mskEx
    rw [Finset.sum_range_succ, Finset.sum_range_succ, Finset.sum_range_succ]
    norm_num
  · rw [Finset.sum_congr rfl fun m _ => yEx_batch m]
    simp
    norm_num

/-- C2 amended.  For every input matrix, mask and resolution `power`, and
every column whose RESAMPLED interpolant has positive sum, the output column
of `batch_process` sums exactly to the sum of that day's ENTIRE column
(`energy = np.sum(y)`, masked and unmasked entries alike), not to the
masked-only sum. -/
theorem batch_energy_amended (data : ℕ → ℕ → ℚ) (mask : ℕ → ℕ → Bool)
    (nrows power c : ℕ)
    (h : 0 < resampledSum (fun i => data i c) (fun i => mask i c) nrows
      (2 ^ power)) :
    (∑ m ∈ Finset.range (2 ^ power), batch_process data mask nrows power m c)
      = colEnergy (fun i => data i c) nrows := by
  unfold batch_process batchCol
  rw [if_pos h]
  rw [← Finset.sum_div, ← Finset.sum_mul]
  rw [show (∑ m ∈ Finset.range (2 ^ power),
      resampleRaw (fun i => data i c) (fun i => mask i c) nrows (2 ^ power) m)
    = resampledSum (fun i => data i c) (fun i => mask i c) nrows (2 ^ power)
    from rfl]
  rw [mul_comm, mul_div_assoc, div_self (ne_of_gt h), mul_one]

/-- Witness for the amended C2 at the concrete column `(1, 1, 2)` with mask
`(true, true, false)` and `power = 1`. -/
theorem batch_energy_amended_witness :
    (0 : ℚ) < resampledSum (fun i => yEx i) (fun i => mskEx i) 3 (2 ^ 1)
    ∧ (∑ m ∈ Finset.range (2 ^ 1),
        batch_process (fun i _ => yEx i) (fun i _ => mskEx i) 3 1 m 0)
      = colEnergy (fun i => yEx i) 3 := by
  have hS : (0 : ℚ) < resampledSum (fun i => yEx i) (fun i => mskEx i) 3 (2 ^ 1) := by
    show (0 : ℚ) < resampledSum yEx mskEx 3 2
    rw [yEx_resampledSum]
    norm_num
  exact ⟨hS,
    batch_energy_amended (fun i _ => yEx i) (fun i _ => mskEx i) 3 1 0 hS⟩

/-! ## C7: round trip of `batch_process` and `undo_batch_process` -/

/-- Unfolding the masked index list one row at a time. -/
theorem maskedIdxs_succ (msk : ℕ → Bool) (n : ℕ) :
    maskedIdxs msk (n + 1)
      = maskedIdxs msk n ++ (if msk n then [n] else []) := by
  unfold maskedIdxs
  rw [List.range_succ, List.filter_append]
  cases h : msk n <;> simp [h]

/-- Unfolding the masked value list one row at a time. -/
theorem maskedVals_succ (y : ℕ → ℚ) (msk : ℕ → Bool) (n : ℕ) :
    maskedVals y msk (n + 1)
      = maskedVals y msk n ++ (if msk n then [y n] else []) := by
  unfold maskedVals
  rw [maskedIdxs_succ]
  cases h : msk n <;> simp [h]

/-- Unfolding the masked count one row at a time. -/
theorem countMasked_succ (msk : ℕ → Bool) (n : ℕ) :
    countMasked msk (n + 1)
      = countMasked msk n + (if msk n then 1 else 0) := by
  unfold countMasked
  rw [maskedIdxs_succ]
  cases h : msk n <;> simp [h]

/-- The masked value list has one entry per masked row. -/
theorem maskedVals_length (y : ℕ → ℚ) (msk : ℕ → Bool) (n : ℕ) :
    (maskedVals y msk n).length = countMasked msk n :=
  List.length_map _ _

/-- The rank of a masked row below `n` is a valid index into the masked
values of the first `n` rows. -/
theorem maskedRank_lt (msk : ℕ → Bool) (n i : ℕ) (hi : i < n)
    (hm : msk i = true) : maskedRank msk i < countMasked msk n := by
  induction n with
  | zero => omega
  | succ m ih =>
    rcases Nat.lt_succ_iff_lt_or_eq.mp hi with h | h
    · have hle : countMasked msk m ≤ countMasked msk (m + 1) := by
        rw [countMasked_succ]
        cases msk m <;> simp
      exact lt_of_lt_of_le (ih h) hle
    · subst h
      have hrk : maskedRank msk i = countMasked msk i := rfl
      rw [hrk, countMasked_succ, hm]
      simp

/-- If a column's masked trace is affine in the masked rank, then the masked
value list is affine in its index. -/
theorem maskedVals_getD_affine (y : ℕ → ℚ) (msk : ℕ → Bool) (n : ℕ) (a b : ℚ)
    (hAff : ∀ i < n, msk i = true → y i = a + b * (maskedRank msk i : ℚ)) :
    ∀ j < countMasked msk n, (maskedVals y msk n).getD j 0 = a + b * j := by
  induction n with
  | zero =>
    intro j hj
    simp [countMasked, maskedIdxs] at hj
  | succ m ih =>
    have ihm : ∀ j < countMasked msk m,
        (maskedVals y msk m).getD j 0 = a + b * j :=
      ih (fun i hi hmi => hAff i (Nat.lt_succ_of_lt hi) hmi)
    intro j hj
    cases h : msk m with
    | false =>
      rw [countMasked_succ, h] at hj
      simp at hj
      rw [maskedVals_succ, h]
      simp only [if_neg Bool.false_ne_true, List.append_nil]
      exact ihm j hj
    | true =>
      rw [countMasked_succ, h] at hj
      simp at hj
      rw [maskedVals_succ, h]
      simp only [if_pos rfl]
      rcases Nat.lt_succ_iff_lt_or_eq.mp hj with hlt | heq
      · rw [List.getD_append _ _ _ _ (by rw [maskedVals_length]; exact hlt)]
        exact ihm j hlt
      · subst heq
        have hlen : (maskedVals y msk m).length = countMasked msk m :=
          maskedVals_length y msk m
        rw [List.getD_append_right _ _ _ _ (le_of_eq hlen)]
        rw [hlen, Nat.sub_self]
        show y m = a + b * (countMasked msk m : ℚ)
        exact hAff m (Nat.lt_succ_self m) h

/-- Algebraic cancellation used in the round-trip computation. -/
theorem affine_rescale (a b E S k1 N1 R : ℚ) (hk1 : k1 ≠ 0) (hN1 : N1 ≠ 0) :
    a * E / S + b * k1 / N1 * E / S * (R / k1 * N1) = E / S * (a + b * R) := by
  have h1 : b * k1 / N1 * E / S * (R / k1 * N1)
      = b * E / S * R * ((k1 * k1⁻¹) * (N1 * N1⁻¹)) := by
    ring
  rw [h1, mul_inv_cancel₀ hk1, mul_inv_cancel₀ hN1]
  ring

/-- C7 amended.  The output of the round trip
`undo_batch_process(batch_process(X, mask), mask)` is exactly zero at every
position outside the mask; at the masked positions of a column whose masked
trace is affine (so linear interpolation is exact and there is no
interpolation error at all), the round trip restores `X` SCALED by the
column's renormalization factor `energy / sum(resampled)` — not `X` itself:
the energy renormalization applied by `batch_process` is not undone by
`undo_batch_process`. -/
theorem roundtrip_amended (X : ℕ → ℕ → ℚ) (mask : ℕ → ℕ → Bool)
    (nrows power c : ℕ) (a b : ℚ)
    (hN : 2 ≤ 2 ^ power)
    (hk : 2 ≤ countMasked (fun r => mask r c) nrows)
    (hS : 0 < resampledSum (fun r => X r c) (fun r => mask r c) nrows
      (2 ^ power))
    (hAff : ∀ i < nrows, mask i c = true →
      X i c = a + b * (maskedRank (fun r => mask r c) i : ℚ)) :
    (∀ i, mask i c = false →
      undo_batch_process (batch_process X mask nrows power) (2 ^ power) mask
        nrows i c = 0)
    ∧ (∀ i < nrows, mask i c = true →
      undo_batch_process (batch_process X mask nrows power) (2 ^ power) mask
        nrows i c
        = (colEnergy (fun r => X r c) nrows
            / resampledSum (fun r => X r c) (fun r => mask r c) nrows
              (2 ^ power)) * X i c) := by
  constructor
  · intro i h
    show undoCol (batchCol (fun r => X r c) (fun r => mask r c) nrows
      (2 ^ power)) (2 ^ power) (fun r => mask r c) nrows i = 0
    unfold undoCol
    simp [h]
  · intro i hi hm
    have hk1 : ((countMasked (fun r => mask r c) nrows : ℚ) - 1) ≠ 0 := by
      have h2 : (2 : ℚ) ≤ (countMasked (fun r => mask r c) nrows : ℚ) := by
        exact_mod_cast hk
      have : (0 : ℚ) < (countMasked (fun r => mask r c) nrows : ℚ) - 1 := by
        linarith
      exact ne_of_gt this
    have hN1 : (((2 ^ power : ℕ) : ℚ) - 1) ≠ 0 := by
      have h2 : (2 : ℚ) ≤ ((2 ^ power : ℕ) : ℚ) := by exact_mod_cast hN
      have : (0 : ℚ) < ((2 ^ power : ℕ) : ℚ) - 1 := by linarith
      exact ne_of_gt this
    have hmv : ∀ j < countMasked (fun r => mask r c) nrows,
        (maskedVals (fun r => X r c) (fun r => mask r c) nrows).getD j 0
          = a + b * j :=
      maskedVals_getD_affine (fun r => X r c) (fun r => mask r c) nrows a b hAff
    have hr : ∀ m : ℕ,
        resampleRaw (fun r => X r c) (fun r => mask r c) nrows (2 ^ power) m
          = a + b * (((m : ℚ) / (((2 ^ power : ℕ) : ℚ) - 1))
              * ((countMasked (fun r => mask r c) nrows : ℚ) - 1)) := by
      intro m
      unfold resampleRaw
      exact interpUnif_affine _ _ a b _ hk hmv
    have hd : ∀ m : ℕ,
        batchCol (fun r => X r c) (fun r => mask r c) nrows (2 ^ power) m
          = (a * colEnergy (fun r => X r c) nrows
              / resampledSum (fun r => X r c) (fun r => mask r c) nrows
                (2 ^ power))
            + (b * ((countMasked (fun r => mask r c) nrows : ℚ) - 1)
                / (((2 ^ power : ℕ) : ℚ) - 1)
                * colEnergy (fun r => X r c) nrows
                / resampledSum (fun r => X r c) (fun r => mask r c) nrows
                  (2 ^ power)) * m := by
      intro m
      unfold batchCol
      rw [if_pos hS]
      rw [hr m]
      ring
    show undoCol (batchCol (fun r => X r c) (fun r => mask r c) nrows
      (2 ^ power)) (2 ^ power) (fun r => mask r c) nrows i = _
    unfold undoCol
    simp only [hm, if_true]
    rw [interpUnif_affine _ _ _ _ _ hN (fun m _ => hd m)]
    rw [hAff i hi hm]
    exact affine_rescale a b _ _ _ _ _ hk1 hN1

/-- Evaluation: the constant-1 2-row column with an all-true mask resamples
to the constant 1 at every output row of the `N = 4` grid. -/
theorem onesEx_resampleRaw (m : ℕ) :
    resampleRaw (fun _ => (1 : ℚ)) (fun _ => true) 2 4 m = 1 := by
  unfold resampleRaw
  rw [show countMasked (fun _ : ℕ => true) 2 = 2 from rfl]
  refine interpUnif_const _ 2 1 _ (by norm_num) ?_
  intro j hj
  interval_cases j <;> rfl

/-- Evaluation: the resampled sum of the constant-1 column at `N = 4` is 4. -/
theorem onesEx_resampledSum :
    resampledSum (fun _ => (1 : ℚ)) (fun _ => true) 2 4 = 4 := by
  unfold resampledSum
  rw [Finset.sum_congr rfl fun m _ => onesEx_resampleRaw m]
  norm_num

/-- Evaluation: each output entry of `batch_process` on the constant-1
column is `1/2` — the renormalization by `energy / sum(resampled) = 2/4`
halves the constant. -/
theorem onesEx_batch (m : ℕ) :
    batchCol (fun _ => (1 : ℚ)) (fun _ => true) 2 4 m = 1 / 2 := by
  unfold batchCol
  rw [onesEx_resampledSum]
  rw [if_pos (by norm_num : (0 : ℚ) < 4)]
  simp only [onesEx_resampleRaw]
  rw [show colEnergy (fun _ => (1 : ℚ)) 2 = 2 by unfold colEnergy; simp]
  norm_num

/-- C7 counterexample.  For the constant-1 matrix (2 rows, all-true mask,
`power = 2`) — a maximally smooth masked trace, reproduced exactly by linear
interpolation — the round trip returns `1/2` at masked position `(0, 0)`
instead of the original value `1`: the discrepancy is the systematic
renormalization factor `energy / sum(resampled) = 2/4`, not an interpolation
error, so the round trip does not restore `X` at masked positions. -/
theorem roundtrip_counterexample :
    (∀ i c : ℕ, (fun _ _ => (1 : ℚ)) i c = 1)
    ∧ (fun _ _ => true : ℕ → ℕ → Bool) 0 0 = true
    ∧ undo_batch_process
        (batch_process (fun _ _ => (1 : ℚ)) (fun _ _ => true) 2 2) (2 ^ 2)
        (fun _ _ => true) 2 0 0 = 1 / 2
    ∧ ((1 : ℚ) / 2) ≠ 1 := by
  refine ⟨fun _ _ => rfl, rfl, ?_, by norm_num⟩
  show undoCol (batchCol (fun _ => (1 : ℚ)) (fun _ => true) 2 4) 4
    (fun _ => true) 2 0 = 1 / 2
  unfold undoCol
  rw [if_pos rfl]
  exact interpUnif_const _ 4 (1 / 2) _ (by norm_num)
    (fun j _ => onesEx_batch j)

/-- Witness for the amended C7: the constant-1 column of a 2-row, 1-day
matrix with an all-true mask and `power = 2` round-trips to the constant
`(2 / 4) * 1 = 1/2` at the masked positions. -/
theorem roundtrip_amended_witness :
    undo_batch_process
        (batch_process (fun _ _ => (1 : ℚ)) (fun _ _ => true) 2 2) (2 ^ 2)
        (fun _ _ => true) 2 0 0
      = (colEnergy (fun _ => (1 : ℚ)) 2
          / resampledSum (fun _ => (1 : ℚ)) (fun _ => true) 2 (2 ^ 2)) * 1 := by
  exact (roundtrip_amended (fun _ _ => (1 : ℚ)) (fun _ _ => true) 2 2 0 1 0
    (by norm_num) (by norm_num [countMasked, maskedIdxs])
    (by
      have h1 : ∀ m : ℕ,
          resampleRaw (fun r => (1 : ℚ)) (fun r => true) 2 (2 ^ 2) m = 1 := by
        intro m
        unfold resampleRaw
        refine interpUnif_const _ _ 1 _ (by norm_num [countMasked, maskedIdxs]) ?_
        intro j hj
        have hj2 : j < 2 := by
          simpa [countMasked, maskedIdxs] using hj
        interval_cases j <;> rfl
      unfold resampledSum
      rw [Finset.sum_congr rfl fun m _ => h1 m]
      norm_num)
    (fun i _ _ => by norm_num)).2 0 (by norm_num) rfl

end SolarDataTools
